import Mathlib

/-!
Shallow embedding of the `spotify-api-playground` crate: the caching
playlist-track fetcher (`CachingSpotify::playlist_tracks`), the lazy
cache-backed iterator (`PlaylistTracks::next`) from `src/lib.rs`, and the
display comparator (`playlist_track_sort_cmp`) from
`src/bin/enrich_playlist.rs`.

Modelling conventions:
- bytes are `Nat` (values < 256 where produced by the code);
- a sled `Tree` is an association list of key/value byte strings plus two
  fault oracles saying which operations fail with a store error;
- the Spotify client, CBOR serialization and CBOR deserialization are
  environment parameters (`Env`), since they are external to the crate;
- `u32` arithmetic is `Nat`: the only place overflow could matter is the
  big-endian byte encoding, and `beBytes` agrees with the wrapping
  semantics of `u32::to_be_bytes` for every `Nat` input;
- `next` and `playlist_tracks` additionally return the list of offsets at
  which a remote page fetch was issued during the call, so that claims
  about "no remote call" are statable.
-/

namespace SpotifyCache

open Batteries

/-- A page returned by `Spotify::user_playlist_tracks`: the items plus the
collection total (`rspotify` `Page` fields used by the code). -/
structure Page (α : Type) where
  items : List α
  total : Nat
  deriving Repr

/-- The error enum of `src/lib.rs`, restricted to the variants the modelled
code paths construct: `Error::Failure` (upstream fetch), `Error::Cbor`
(serialization), `Error::Sled` (store). -/
inductive Err where
  | failure : Err
  | cbor : Err
  | sled : Err
  deriving DecidableEq, Repr

/-- External collaborators: the remote client (`user_playlist_tracks`,
keyed by playlist id bytes, limit, offset) and the CBOR codec. -/
structure Env (α : Type) where
  user_playlist_tracks : List Nat → Nat → Nat → Except Unit (Page α)
  ser : α → Except Unit (List Nat)
  de : List Nat → Except Unit α

/-- `SEARCH_LIMIT` from `src/lib.rs`: the fixed page size. -/
def SEARCH_LIMIT : Nat := 20

/-- Association-list lookup for tree entries (newest entry first, as
`Tree.insert` prepends). -/
def lookupEntry : List (List Nat × List Nat) → List Nat → Option (List Nat)
  | [], _ => none
  | (k, v) :: rest, key => if k = key then some v else lookupEntry rest key

/-- A sled `Tree`: its current contents plus fault oracles deciding which
`get` and `insert` calls fail with `sled::Error`. -/
structure Tree where
  entries : List (List Nat × List Nat)
  getErr : List Nat → Bool
  insErr : List Nat → Bool

/-- `sled::Tree::get`. -/
def Tree.get (t : Tree) (k : List Nat) : Except Unit (Option (List Nat)) :=
  if t.getErr k then .error () else .ok (lookupEntry t.entries k)

/-- `sled::Tree::insert` (the code ignores the returned previous value). -/
def Tree.insert (t : Tree) (k v : List Nat) : Except Unit Tree :=
  if t.insErr k then .error ()
  else .ok { t with entries := (k, v) :: t.entries }

/-- `u32::to_be_bytes`, agreeing with wrapping `u32` semantics for all
`Nat` inputs. -/
def beBytes (n : Nat) : List Nat :=
  [n / 2 ^ 24 % 256, n / 2 ^ 16 % 256, n / 2 ^ 8 % 256, n % 256]

/-- `u32::from_be_bytes` on a 4-byte string (the code only applies it after
a successful `try_into` to `[u8; 4]`). -/
def fromBeBytes : List Nat → Nat
  | [b0, b1, b2, b3] => b0 * 2 ^ 24 + b1 * 2 ^ 16 + b2 * 2 ^ 8 + b3
  | _ => 0

/-- The iterator state `PlaylistTracks` of `src/lib.rs` (the `spotify`
borrow lives in `Env`). -/
structure PlaylistTracks (α : Type) where
  playlist_id : List Nat
  total : Nat
  offset : Nat
  key : List Nat
  buffer : List α
  tree : Tree

/-- `PlaylistTracks::update_key`: overwrite the last 4 bytes of the key
buffer with the big-endian offset. -/
def PlaylistTracks.update_key (key : List Nat) (offset : Nat) : List Nat :=
  key.take (key.length - 4) ++ beBytes offset

/-- The composite key the code uses for index `i` of a collection: id bytes
followed by the 4-byte big-endian index. -/
def compositeKey (id : List Nat) (i : Nat) : List Nat :=
  id ++ beBytes i

/-- The result of a parsed cached length: `length_tree.get` value run
through `try_into`/`from_be_bytes` (`Some` only for exactly-4-byte values). -/
def parseLen : Option (List Nat) → Option Nat
  | some v => if v.length = 4 then some (fromBeBytes v) else none
  | none => none

/-- `CachingSpotify::playlist_tracks`. Returns the call result, the final
lengths tree, and the offsets of remote fetches issued by the call. -/
def playlist_tracks (env : Env α) (length_tree tracks_tree : Tree)
    (playlist_id : List Nat) (force : Bool) :
    Except Err (PlaylistTracks α) × Tree × List Nat :=
  let totalRes : Except Err (Option Nat) :=
    if force then .ok none
    else
      match length_tree.get playlist_id with
      | .error _ => .error .sled
      | .ok v => .ok (parseLen v)
  let key := playlist_id ++ [0, 0, 0, 0]
  match totalRes with
  | .error e => (.error e, length_tree, [])
  | .ok (some total) =>
      (.ok ⟨playlist_id, total, 0, key, [], tracks_tree⟩, length_tree, [])
  | .ok none =>
      match env.user_playlist_tracks playlist_id SEARCH_LIMIT 0 with
      | .error _ => (.error .failure, length_tree, [0])
      | .ok first_page =>
          match length_tree.insert playlist_id (beBytes first_page.total) with
          | .error _ => (.error .sled, length_tree, [0])
          | .ok length_tree2 =>
              (.ok ⟨playlist_id, first_page.total, 0, key,
                    first_page.items, tracks_tree⟩, length_tree2, [0])

/-- The cache-write loop of `PlaylistTracks::next` (lines 230-239): for
each fetched item serialize it and insert it under the key for
`offset + i`, aborting on the first codec or store error. The threaded
key models the in-place mutation of `self.key`. -/
def writeCache (env : Env α) :
    List α → Nat → Nat → Tree → List Nat →
    Except (Err × Tree × List Nat) (Tree × List Nat)
  | [], _, _, tree, key => .ok (tree, key)
  | item :: rest, offset, i, tree, key =>
    match env.ser item with
    | .error _ => .error (.cbor, tree, key)
    | .ok serialized =>
      let key2 := PlaylistTracks.update_key key (offset + i)
      match tree.insert key2 serialized with
      | .error _ => .error (.sled, tree, key2)
      | .ok tree2 => writeCache env rest offset (i + 1) tree2 key2

/-- The part of `PlaylistTracks::next` after the cache-read attempt has
been resolved as a miss (lines 215-244): lookahead buffer, then remote
fetch with cache write-back. -/
def PlaylistTracks.afterCache (env : Env α) (s : PlaylistTracks α) :
    Option (Except Err α) × PlaylistTracks α × List Nat :=
  match s.buffer with
  | track :: rest =>
      (some (.ok track), { s with buffer := rest, offset := s.offset + 1 }, [])
  | [] =>
    match env.user_playlist_tracks s.playlist_id SEARCH_LIMIT s.offset with
    | .error _ => (some (.error .failure), s, [s.offset])
    | .ok next_page =>
      match writeCache env next_page.items s.offset 0 s.tree s.key with
      | .error (e, tree2, key2) =>
          (some (.error e), { s with tree := tree2, key := key2 }, [s.offset])
      | .ok (tree2, key2) =>
        match next_page.items with
        | [] =>
            (none,
             { s with buffer := [], tree := tree2, key := key2,
                      offset := s.offset + 1 }, [s.offset])
        | t :: rest =>
            (some (.ok t),
             { s with buffer := rest, tree := tree2, key := key2,
                      offset := s.offset + 1 }, [s.offset])

/-- `<PlaylistTracks as Iterator>::next` (lines 198-244). Also returns the
offsets at which a remote fetch was issued during this pull. -/
def PlaylistTracks.next (env : Env α) (s : PlaylistTracks α) :
    Option (Except Err α) × PlaylistTracks α × List Nat :=
  if s.offset ≥ s.total then (none, s, [])
  else
    let s1 := { s with key := PlaylistTracks.update_key s.key s.offset }
    match s1.tree.get s1.key with
    | .ok (some ivec) =>
      match env.de ivec with
      | .ok track =>
          (some (.ok track),
           { s1 with buffer := s1.buffer.tail, offset := s1.offset + 1 }, [])
      | .error _ => PlaylistTracks.afterCache env s1
    | .ok none => PlaylistTracks.afterCache env s1
    | .error _ => PlaylistTracks.afterCache env s1

/-- Pull the iterator `n` times, collecting the results in order. -/
def run (env : Env α) (s : PlaylistTracks α) :
    Nat → List (Option (Except Err α)) × PlaylistTracks α
  | 0 => ([], s)
  | n + 1 =>
    let p := PlaylistTracks.next env s
    let rest := run env p.2.1 n
    (p.1 :: rest.1, rest.2)

/-!
The display comparator of `src/bin/enrich_playlist.rs`. Rust `String`
ordering is byte-lexicographic on UTF-8 bytes, so strings are byte lists
compared by `listLexCmp compare`; `Option` ordering places `None` first,
as in Rust.
-/

/-- Lexicographic comparison of lists by a base comparator: elementwise
until a difference, a strict prefix compares less. This is the `Ord`
behaviour of Rust slices, `Vec` and (over UTF-8 bytes) `String`/`str`. -/
def listLexCmp (c : β → β → Ordering) : List β → List β → Ordering
  | [], [] => .eq
  | [], _ :: _ => .lt
  | _ :: _, [] => .gt
  | a :: as, b :: bs => (c a b).then (listLexCmp c as bs)

/-- Rust `String::cmp`: byte-lexicographic. -/
def bytesCmp : List Nat → List Nat → Ordering :=
  listLexCmp compare

/-- Rust `Option::cmp` over strings: `None` sorts before `Some`. -/
def optBytesCmp : Option (List Nat) → Option (List Nat) → Ordering
  | none, none => .eq
  | none, some _ => .lt
  | some _, none => .gt
  | some a, some b => bytesCmp a b

/-- The fields of `rspotify` `SimplifiedArtist` used by the binary. -/
structure SimplifiedArtist where
  name : List Nat
  deriving DecidableEq, Repr

/-- The fields of `rspotify` `SimplifiedAlbum` used by the comparator. -/
structure SimplifiedAlbum where
  release_date : Option (List Nat)
  name : List Nat
  deriving DecidableEq, Repr

/-- The fields of `rspotify` `FullTrack` used by the comparator. -/
structure FullTrack where
  album : SimplifiedAlbum
  artists : List SimplifiedArtist
  track_number : Nat
  name : List Nat
  deriving DecidableEq, Repr

/-- The fields of `rspotify` `PlaylistTrack` used by the comparator. -/
structure PlaylistTrack where
  track : FullTrack
  deriving DecidableEq, Repr

/-- The `for (a_artist, b_artist) in a.zip(b)` loop of
`playlist_track_sort_cmp`: compare artist names pairwise over the zip,
returning the first non-equal result, `Ordering::Equal` if the zip is
exhausted. -/
def artistZipCmp : List SimplifiedArtist → List SimplifiedArtist → Ordering
  | a :: as, b :: bs =>
    match bytesCmp a.name b.name with
    | .eq => artistZipCmp as bs
    | o => o
  | _, _ => .eq

/-- `playlist_track_sort_cmp` from `src/bin/enrich_playlist.rs`
(lines 34-58), with the same early-return match structure. -/
def playlist_track_sort_cmp (a b : PlaylistTrack) : Ordering :=
  match optBytesCmp a.track.album.release_date b.track.album.release_date with
  | .eq =>
    match artistZipCmp a.track.artists b.track.artists with
    | .eq =>
      match compare a.track.artists.length b.track.artists.length with
      | .eq =>
        match bytesCmp a.track.album.name b.track.album.name with
        | .eq =>
          match compare a.track.track_number b.track.track_number with
          | .eq => bytesCmp a.track.name b.track.name
          | o => o
        | o => o
      | o => o
    | o => o
  | o => o

/-- Compare through a projection. -/
def cmpOn (c : β → β → Ordering) (f : α → β) : α → α → Ordering :=
  fun a b => c (f a) (f b)

/-- Modelled from the spec: the display order as the spec states it — a
lexicographic tuple comparison by release date, then artist names
lexicographically, then artist count, then album name, then track
number, with the final tiebreak by track name. -/
def specDisplayCmp : PlaylistTrack → PlaylistTrack → Ordering :=
  compareLex (cmpOn optBytesCmp fun t => t.track.album.release_date) <|
  compareLex
    (cmpOn (listLexCmp bytesCmp) fun t =>
      t.track.artists.map SimplifiedArtist.name) <|
  compareLex (cmpOn compare fun t => t.track.artists.length) <|
  compareLex (cmpOn bytesCmp fun t => t.track.album.name) <|
  compareLex (cmpOn compare fun t => t.track.track_number)
    (cmpOn bytesCmp fun t => t.track.name)

/-- The order the displayed tracks are sorted in: `a` precedes `b` when
the comparator does not say `Greater`. -/
def trackLe (a b : PlaylistTrack) : Prop :=
  playlist_track_sort_cmp a b ≠ .gt

instance : DecidableRel trackLe := fun a b =>
  inferInstanceAs (Decidable (playlist_track_sort_cmp a b ≠ .gt))

/-- `tracks.sort_unstable_by(playlist_track_sort_cmp)` in
`print_playlist`: the track list as printed, sorted by the comparator. -/
def sortTracks (ts : List PlaylistTrack) : List PlaylistTrack :=
  List.insertionSort trackLe ts

/-!
Supporting lemmas.
-/

/-- The key the iterator and the fetcher build for index `i` is the
composite key: overwriting the last 4 bytes of any key of the composite
shape yields `id ++ beBytes i`. -/
theorem update_key_eq (id : List Nat) (k : List Nat) (hk : k.length = 4)
    (i : Nat) : PlaylistTracks.update_key (id ++ k) i = compositeKey id i := by
  simp [PlaylistTracks.update_key, compositeKey, List.length_append, hk,
    List.take_left]

theorem eqThen (o : Ordering) : Ordering.eq.then o = o := rfl

theorem ltThen (o : Ordering) : Ordering.lt.then o = .lt := rfl

/-- Big-endian `u32` byte strings compare lexicographically like the
numbers they encode. -/
theorem beBytes_lt {i j : Nat} (h : i < j) (hj : j < 2 ^ 32) :
    bytesCmp (beBytes i) (beBytes j) = .lt := by
  simp only [bytesCmp, beBytes, listLexCmp]
  rcases Nat.lt_trichotomy (i / 2 ^ 24 % 256) (j / 2 ^ 24 % 256) with h3 | h3 | h3
  · rw [Nat.compare_eq_lt.2 h3, ltThen]
  · rw [h3, Nat.compare_eq_eq.2 rfl, eqThen]
    rcases Nat.lt_trichotomy (i / 2 ^ 16 % 256) (j / 2 ^ 16 % 256) with h2 | h2 | h2
    · rw [Nat.compare_eq_lt.2 h2, ltThen]
    · rw [h2, Nat.compare_eq_eq.2 rfl, eqThen]
      rcases Nat.lt_trichotomy (i / 2 ^ 8 % 256) (j / 2 ^ 8 % 256) with h1 | h1 | h1
      · rw [Nat.compare_eq_lt.2 h1, ltThen]
      · rw [h1, Nat.compare_eq_eq.2 rfl, eqThen]
        have h0 : i % 256 < j % 256 := by omega
        rw [Nat.compare_eq_lt.2 h0, ltThen]
      · exfalso; omega
    · exfalso; omega
  · exfalso; omega

/-- Byte-lexicographic comparison ignores a shared prefix. -/
theorem bytesCmp_append_left (id as bs : List Nat) :
    bytesCmp (id ++ as) (id ++ bs) = bytesCmp as bs := by
  induction id with
  | nil => rfl
  | cons x rest ih =>
      simp only [bytesCmp, List.cons_append, listLexCmp,
        Nat.compare_eq_eq.2 rfl, eqThen] at ih ⊢
      exact ih

/-- C7: for a fixed collection id and indices `i < j` (in `u32` range), the
composite key for `(id, i)` is strictly below the composite key for
`(id, j)` in byte-lexicographic order, and the key the code builds by
overwriting the last 4 bytes (`update_key`) is exactly this composite
key, so the encoding is strictly monotone in the index. -/
theorem C7_key_ordering (id : List Nat) (i j : Nat) (hij : i < j)
    (hj : j < 2 ^ 32) :
    bytesCmp (compositeKey id i) (compositeKey id j) = .lt ∧
    PlaylistTracks.update_key (id ++ [0, 0, 0, 0]) i = compositeKey id i ∧
    ∀ k, PlaylistTracks.update_key (compositeKey id k) i = compositeKey id i := by
  refine ⟨?_, update_key_eq id [0, 0, 0, 0] rfl i,
    fun k => update_key_eq id (beBytes k) rfl i⟩
  simp only [compositeKey]
  rw [bytesCmp_append_left]
  exact beBytes_lt hij hj

/-- Witness for C7 at a concrete id and pair of indices. -/
theorem C7_key_ordering_witness :
    3 < 7 ∧ (7 : Nat) < 2 ^ 32 ∧
    bytesCmp (compositeKey [5, 9] 3) (compositeKey [5, 9] 7) = .lt :=
  ⟨by decide, by norm_num,
    (C7_key_ordering [5, 9] 3 7 (by decide) (by norm_num)).1⟩

/-!
Concrete environments and trees used by the witnesses.
-/

/-- A store tree with given contents and no injected faults. -/
def mkTree (es : List (List Nat × List Nat)) : Tree :=
  ⟨es, fun _ => false, fun _ => false⟩

/-- A concrete faultless environment over `Nat` items: the remote holds
the two-item collection `[100, 101]`, serialization is the singleton
list, deserialization its inverse. -/
def envW : Env Nat where
  user_playlist_tracks := fun _ _ o => .ok ⟨(List.drop o [100, 101]), 2⟩
  ser := fun t => .ok [t]
  de := fun b => match b with
    | [t] => .ok t
    | _ => .error ()

/-- Shared helper: in the eager case (`force`, or a length read that
parses to nothing), a successful fetch and length write produce the
page-seeded iterator and overwrite the cached length. -/
theorem fetch_eager_result {α : Type} (env : Env α) (lenT trkT : Tree)
    (id : List Nat) (force : Bool) (page : Page α)
    (h : force = true ∨
      (lenT.getErr id = false ∧
        parseLen (lookupEntry lenT.entries id) = none))
    (hfetch : env.user_playlist_tracks id SEARCH_LIMIT 0 = .ok page)
    (hins : lenT.insErr id = false) :
    playlist_tracks env lenT trkT id force =
      (.ok ⟨id, page.total, 0, id ++ [0, 0, 0, 0], page.items, trkT⟩,
       ⟨(id, beBytes page.total) :: lenT.entries,
        lenT.getErr, lenT.insErr⟩, [0]) := by
  have hinsert : lenT.insert id (beBytes page.total) =
      .ok ⟨(id, beBytes page.total) :: lenT.entries,
           lenT.getErr, lenT.insErr⟩ := by
    simp [Tree.insert, hins]
  rcases h with h | ⟨hge, hparse⟩
  · subst h
    simp [playlist_tracks, hfetch, hinsert]
  · cases force with
    | true => simp [playlist_tracks, hfetch, hinsert]
    | false =>
        simp [playlist_tracks, Tree.get, hge, hparse, hfetch, hinsert]

/-- C2: `playlist_tracks` makes a remote call if and only if `force` is
true or no valid cached length exists. Conjuncts: (a) with `force = false`
and a well-formed cached length, the returned iterator has `offset = 0`,
the cached total, an empty buffer, and no remote call happens; (b) in the
eager case exactly one remote call at offset 0 is issued; (c) in the eager
case with a successful fetch and length write, the cached length is
overwritten with `page.total` and the iterator is seeded with the page
items; (d) a store error on the length read aborts with no remote call. -/
theorem C2_fetch_decision {α : Type} :
    (∀ (env : Env α) lenT trkT id v,
        lenT.getErr id = false →
        lookupEntry lenT.entries id = some v → v.length = 4 →
        playlist_tracks env lenT trkT id false =
          (.ok ⟨id, fromBeBytes v, 0, id ++ [0, 0, 0, 0], [], trkT⟩,
           lenT, [])) ∧
    (∀ (env : Env α) lenT trkT id force,
        (force = true ∨
          (lenT.getErr id = false ∧
            parseLen (lookupEntry lenT.entries id) = none)) →
        (playlist_tracks env lenT trkT id force).2.2 = [0]) ∧
    (∀ (env : Env α) lenT trkT id force page,
        (force = true ∨
          (lenT.getErr id = false ∧
            parseLen (lookupEntry lenT.entries id) = none)) →
        env.user_playlist_tracks id SEARCH_LIMIT 0 = .ok page →
        lenT.insErr id = false →
        playlist_tracks env lenT trkT id force =
          (.ok ⟨id, page.total, 0, id ++ [0, 0, 0, 0], page.items, trkT⟩,
           ⟨(id, beBytes page.total) :: lenT.entries,
            lenT.getErr, lenT.insErr⟩, [0])) ∧
    (∀ (env : Env α) lenT trkT id,
        lenT.getErr id = true →
        playlist_tracks env lenT trkT id false =
          (.error .sled, lenT, [])) := by
  refine ⟨?_, ?_, ?_, ?_⟩
  · intro env lenT trkT id v hge hlook hlen
    simp [playlist_tracks, Tree.get, hge, hlook, parseLen, hlen]
  · intro env lenT trkT id force h
    rcases h with h | ⟨hge, hparse⟩
    · subst h
      simp only [playlist_tracks, if_pos rfl]
      cases hfetch : env.user_playlist_tracks id SEARCH_LIMIT 0 with
      | error e => simp [hfetch]
      | ok page =>
          simp only [hfetch]
          cases hins : lenT.insert id (beBytes page.total) with
          | error e => simp [hins]
          | ok t2 => simp [hins]
    · cases force with
      | true =>
          simp only [playlist_tracks, if_pos rfl]
          cases hfetch : env.user_playlist_tracks id SEARCH_LIMIT 0 with
          | error e => simp [hfetch]
          | ok page =>
              simp only [hfetch]
              cases hins : lenT.insert id (beBytes page.total) with
              | error e => simp [hins]
              | ok t2 => simp [hins]
      | false =>
          cases hfetch : env.user_playlist_tracks id SEARCH_LIMIT 0 with
          | error e => simp [playlist_tracks, Tree.get, hge, hparse, hfetch]
          | ok page =>
              cases hins : lenT.insert id (beBytes page.total) with
              | error e2 =>
                  simp [playlist_tracks, Tree.get, hge, hparse, hfetch, hins]
              | ok t2 =>
                  simp [playlist_tracks, Tree.get, hge, hparse, hfetch, hins]
  · exact fun env lenT trkT id force page h hfetch hins =>
      fetch_eager_result env lenT trkT id force page h hfetch hins
  · intro env lenT trkT id hge
    simp [playlist_tracks, Tree.get, hge]

/-- Witness for C2: a cached length `[0, 0, 0, 2]` for id `[97]` is used
without any remote call. -/
theorem C2_fetch_decision_witness :
    (mkTree [([97], [0, 0, 0, 2])]).getErr [97] = false ∧
    lookupEntry (mkTree [([97], [0, 0, 0, 2])]).entries [97] =
      some [0, 0, 0, 2] ∧
    playlist_tracks envW (mkTree [([97], [0, 0, 0, 2])]) (mkTree [])
        [97] false =
      (.ok ⟨[97], fromBeBytes [0, 0, 0, 2], 0, [97] ++ [0, 0, 0, 0], [],
            mkTree []⟩, mkTree [([97], [0, 0, 0, 2])], []) :=
  ⟨rfl, rfl,
    C2_fetch_decision.1 envW (mkTree [([97], [0, 0, 0, 2])]) (mkTree [])
      [97] [0, 0, 0, 2] rfl rfl rfl⟩

/-- C6: whatever path `playlist_tracks` takes, the iterator it returns
carries the items tree exactly as it was passed in — the eager first page
lives only in the lookahead buffer, and no items-namespace entry is
written or modified by the fetch call itself. -/
theorem C6_fetch_leaves_items_tree {α : Type} (env : Env α)
    (lenT trkT : Tree) (id : List Nat) (force : Bool)
    (it : PlaylistTracks α) (lenT2 : Tree) (tr : List Nat)
    (h : playlist_tracks env lenT trkT id force = (.ok it, lenT2, tr)) :
    it.tree = trkT ∧ it.tree.entries = trkT.entries := by
  have : it.tree = trkT := by
    simp only [playlist_tracks] at h
    split at h
    · simp at h
    · simp only [Prod.mk.injEq, Except.ok.injEq] at h
      rw [← h.1]
    · split at h
      · simp at h
      · split at h
        · simp at h
        · simp only [Prod.mk.injEq, Except.ok.injEq] at h
          rw [← h.1]
  exact ⟨this, by rw [this]⟩

/-- Witness for C6 on a concrete eager fetch over an empty cache. -/
theorem C6_fetch_leaves_items_tree_witness :
    (playlist_tracks envW (mkTree []) (mkTree [([9], [7])]) [97] false =
      (.ok ⟨[97], 2, 0, [97] ++ [0, 0, 0, 0], [100, 101],
            mkTree [([9], [7])]⟩,
       mkTree [([97], beBytes 2)], [0])) ∧
    (⟨[97], 2, 0, [97] ++ [0, 0, 0, 0], [100, 101],
        mkTree [([9], [7])]⟩ : PlaylistTracks Nat).tree =
      mkTree [([9], [7])] :=
  ⟨rfl,
    (C6_fetch_leaves_items_tree envW (mkTree []) (mkTree [([9], [7])])
      [97] false _ _ _ rfl).1⟩

/-- C10: with `force = false`, a lengths entry whose value is not exactly
4 bytes parses to no cached length, so the eager remote fetch at offset 0
happens and the malformed entry is overwritten with the fresh total. -/
theorem C10_malformed_length {α : Type} (env : Env α)
    (lenT trkT : Tree) (id v : List Nat) (page : Page α)
    (hge : lenT.getErr id = false)
    (hlook : lookupEntry lenT.entries id = some v)
    (hlen : v.length ≠ 4)
    (hfetch : env.user_playlist_tracks id SEARCH_LIMIT 0 = .ok page)
    (hins : lenT.insErr id = false) :
    playlist_tracks env lenT trkT id false =
      (.ok ⟨id, page.total, 0, id ++ [0, 0, 0, 0], page.items, trkT⟩,
       ⟨(id, beBytes page.total) :: lenT.entries,
        lenT.getErr, lenT.insErr⟩, [0]) ∧
    lookupEntry ((id, beBytes page.total) :: lenT.entries) id =
      some (beBytes page.total) := by
  refine ⟨?_, by simp [lookupEntry]⟩
  refine fetch_eager_result env lenT trkT id false page
    (Or.inr ⟨hge, ?_⟩) hfetch hins
  simp [parseLen, hlook, hlen]

/-- Witness for C10: a 3-byte length entry is ignored and overwritten. -/
theorem C10_malformed_length_witness :
    (mkTree [([97], [9, 9, 9])]).getErr [97] = false ∧
    lookupEntry (mkTree [([97], [9, 9, 9])]).entries [97] =
      some [9, 9, 9] ∧
    playlist_tracks envW (mkTree [([97], [9, 9, 9])]) (mkTree [])
        [97] false =
      (.ok ⟨[97], 2, 0, [97] ++ [0, 0, 0, 0], [100, 101], mkTree []⟩,
       ⟨([97], beBytes 2) :: (mkTree [([97], [9, 9, 9])]).entries,
        (mkTree [([97], [9, 9, 9])]).getErr,
        (mkTree [([97], [9, 9, 9])]).insErr⟩, [0]) :=
  ⟨rfl, rfl,
    (C10_malformed_length envW (mkTree [([97], [9, 9, 9])]) (mkTree [])
      [97] [9, 9, 9] ⟨[100, 101], 2⟩ rfl rfl (by decide) rfl rfl).1⟩

/-- Shared helper: if the post-cache path yields an error, the cursor has
not advanced: same offset, same total, same collection. -/
theorem afterCache_error {α : Type} (env : Env α)
    (s s2 : PlaylistTracks α) (e : Err) (tr : List Nat)
    (h : PlaylistTracks.afterCache env s = (some (.error e), s2, tr)) :
    s2.offset = s.offset ∧ s2.total = s.total ∧
      s2.playlist_id = s.playlist_id := by
  simp only [PlaylistTracks.afterCache] at h
  split at h
  · simp at h
  · split at h
    · simp only [Prod.mk.injEq, Option.some.injEq] at h
      obtain ⟨-, h2, -⟩ := h
      subst h2
      exact ⟨rfl, rfl, rfl⟩
    · split at h
      · simp only [Prod.mk.injEq, Option.some.injEq] at h
        obtain ⟨-, h2, -⟩ := h
        subst h2
        exact ⟨rfl, rfl, rfl⟩
      · split at h
        · simp at h
        · simp at h

/-- C3: a pull that yields an error (upstream fetch failure, cache-write
serialization failure, or store write failure) leaves `offset` where it
was, with the same total and collection, and the iterator still Active
(`offset < total`), so the caller may retry the pull. -/
theorem C3_error_leaves_offset {α : Type} (env : Env α)
    (s s2 : PlaylistTracks α) (e : Err) (tr : List Nat)
    (h : PlaylistTracks.next env s = (some (.error e), s2, tr)) :
    s2.offset = s.offset ∧ s2.total = s.total ∧ s2.offset < s2.total ∧
      s2.playlist_id = s.playlist_id := by
  simp only [PlaylistTracks.next] at h
  split at h
  · simp at h
  · rename_i hlt
    have hlt2 : s.offset < s.total := Nat.lt_of_not_le hlt
    split at h
    · split at h
      · simp at h
      · have h5 := afterCache_error env _ s2 e tr h
        have h1 : s2.offset = s.offset := h5.1
        have h2 : s2.total = s.total := h5.2.1
        exact ⟨h1, h2, by omega, h5.2.2⟩
    · have h5 := afterCache_error env _ s2 e tr h
      have h1 : s2.offset = s.offset := h5.1
      have h2 : s2.total = s.total := h5.2.1
      exact ⟨h1, h2, by omega, h5.2.2⟩
    · have h5 := afterCache_error env _ s2 e tr h
      have h1 : s2.offset = s.offset := h5.1
      have h2 : s2.total = s.total := h5.2.1
      exact ⟨h1, h2, by omega, h5.2.2⟩

/-- An environment whose remote fetch always fails. -/
def envFail : Env Nat where
  user_playlist_tracks := fun _ _ _ => .error ()
  ser := fun t => .ok [t]
  de := fun b => match b with
    | [t] => .ok t
    | _ => .error ()

/-- Witness for C3: a pull over an empty cache with a failing remote
yields an upstream error and the offset stays at 0, still Active. -/
theorem C3_error_leaves_offset_witness :
    PlaylistTracks.next envFail
        ⟨[97], 2, 0, [97, 0, 0, 0, 0], [], mkTree []⟩ =
      (some (.error .failure),
       ⟨[97], 2, 0, [97, 0, 0, 0, 0], [], mkTree []⟩, [0]) ∧
    ((0 : Nat) = 0 ∧ (2 : Nat) = 2 ∧ (0 : Nat) < 2 ∧
      ([97] : List Nat) = [97]) :=
  ⟨rfl,
    C3_error_leaves_offset envFail
      ⟨[97], 2, 0, [97, 0, 0, 0, 0], [], mkTree []⟩
      ⟨[97], 2, 0, [97, 0, 0, 0, 0], [], mkTree []⟩
      .failure [0] rfl⟩

/-- C4: when the items cache holds a deserializable entry for the current
index, the pull makes no remote call (empty trace), pops one entry off
the lookahead buffer, increments the offset, and yields the cached item. -/
theorem C4_cache_hit {α : Type} (env : Env α) (s : PlaylistTracks α)
    (bs : List Nat) (track : α)
    (hlt : s.offset < s.total)
    (hget : s.tree.get (PlaylistTracks.update_key s.key s.offset) =
      .ok (some bs))
    (hde : env.de bs = .ok track) :
    PlaylistTracks.next env s =
      (some (.ok track),
       { s with key := PlaylistTracks.update_key s.key s.offset,
                buffer := s.buffer.tail, offset := s.offset + 1 }, []) := by
  simp only [PlaylistTracks.next]
  rw [if_neg (Nat.not_le.2 hlt)]
  simp [hget, hde]

/-- Witness for C4: index 0 is cached; the pull yields it from the cache
with no remote call and shortens the buffer. -/
theorem C4_cache_hit_witness :
    PlaylistTracks.next envW
        ⟨[97], 2, 0, [97, 0, 0, 0, 0], [5, 6],
         mkTree [([97, 0, 0, 0, 0], [100])]⟩ =
      (some (.ok 100),
       ⟨[97], 2, 1, [97, 0, 0, 0, 0], [6],
        mkTree [([97, 0, 0, 0, 0], [100])]⟩, []) := by
  have h := C4_cache_hit envW
    ⟨[97], 2, 0, [97, 0, 0, 0, 0], [5, 6],
     mkTree [([97, 0, 0, 0, 0], [100])]⟩
    [100] 100 (by decide) rfl rfl
  exact h

/-- C5: a cache read that store-errors, or returns bytes the codec cannot
parse, surfaces no error for the step: the pull proceeds exactly as the
post-cache miss path (lookahead buffer, then remote), so such failures
never abort a traversal. -/
theorem C5_cache_fault_is_miss {α : Type} (env : Env α)
    (s : PlaylistTracks α)
    (hlt : s.offset < s.total)
    (h : s.tree.getErr (PlaylistTracks.update_key s.key s.offset) = true ∨
      ∃ bs, s.tree.get (PlaylistTracks.update_key s.key s.offset) =
          .ok (some bs) ∧ env.de bs = .error ()) :
    PlaylistTracks.next env s =
      PlaylistTracks.afterCache env
        { s with key := PlaylistTracks.update_key s.key s.offset } := by
  simp only [PlaylistTracks.next]
  rw [if_neg (Nat.not_le.2 hlt)]
  rcases h with hge | ⟨bs, hget, hde⟩
  · have : s.tree.get (PlaylistTracks.update_key s.key s.offset) =
        .error () := by
      simp [Tree.get, hge]
    simp [this]
  · simp [hget, hde]

/-- Witness for C5: an unparseable two-byte cache entry at index 0 is
skipped and the pull resolves index 0 from the lookahead buffer. -/
theorem C5_cache_fault_is_miss_witness :
    PlaylistTracks.next envW
        ⟨[97], 2, 0, [97, 0, 0, 0, 0], [5, 6],
         mkTree [([97, 0, 0, 0, 0], [1, 2])]⟩ =
      PlaylistTracks.afterCache envW
        ⟨[97], 2, 0, [97, 0, 0, 0, 0], [5, 6],
         mkTree [([97, 0, 0, 0, 0], [1, 2])]⟩ ∧
    PlaylistTracks.afterCache envW
        ⟨[97], 2, 0, [97, 0, 0, 0, 0], [5, 6],
         mkTree [([97, 0, 0, 0, 0], [1, 2])]⟩ =
      (some (.ok 5),
       ⟨[97], 2, 1, [97, 0, 0, 0, 0], [6],
        mkTree [([97, 0, 0, 0, 0], [1, 2])]⟩, []) :=
  ⟨C5_cache_fault_is_miss envW
      ⟨[97], 2, 0, [97, 0, 0, 0, 0], [5, 6],
       mkTree [([97, 0, 0, 0, 0], [1, 2])]⟩
      (by decide) (Or.inr ⟨[1, 2], rfl, rfl⟩),
    rfl⟩

/-- An environment whose remote fetch succeeds but returns zero items
(with a claimed total of 5). -/
def envEmptyPage : Env Nat where
  user_playlist_tracks := fun _ _ _ => .ok ⟨[], 5⟩
  ser := fun t => .ok [t]
  de := fun b => match b with
    | [t] => .ok t
    | _ => .error ()

/-- C9: when the pull reaches the remote step (miss, empty buffer) and
the remote succeeds with zero items, `next` yields `none` — ending the
sequence before `total` items — while the offset is still incremented. -/
theorem C9_empty_page_ends {α : Type} (env : Env α)
    (s : PlaylistTracks α) (t : Nat)
    (hlt : s.offset < s.total)
    (hget : s.tree.get (PlaylistTracks.update_key s.key s.offset) = .ok none)
    (hbuf : s.buffer = [])
    (hfetch : env.user_playlist_tracks s.playlist_id SEARCH_LIMIT s.offset =
      .ok ⟨[], t⟩) :
    PlaylistTracks.next env s =
      (none,
       { s with key := PlaylistTracks.update_key s.key s.offset,
                buffer := ([] : List α), offset := s.offset + 1 },
       [s.offset]) := by
  simp only [PlaylistTracks.next]
  rw [if_neg (Nat.not_le.2 hlt)]
  simp [hget, PlaylistTracks.afterCache, hbuf, hfetch, writeCache]

/-- Witness for C9: with `total = 5`, an empty cache, an empty buffer and
a remote returning an empty page, the pull yields `none` at offset 0 and
the new offset is 1. -/
theorem C9_empty_page_ends_witness :
    PlaylistTracks.next envEmptyPage
        ⟨[97], 5, 0, [97, 0, 0, 0, 0], [], mkTree []⟩ =
      (none, ⟨[97], 5, 1, [97, 0, 0, 0, 0], [], mkTree []⟩, [0]) := by
  have h := C9_empty_page_ends envEmptyPage
    ⟨[97], 5, 0, [97, 0, 0, 0, 0], [], mkTree []⟩ 5
    (by decide) rfl rfl rfl
  exact h

/-!
C1: exhaustion of an error-free traversal.
-/

/-- The remote source is well-behaved for a collection of the given total:
every page request below the total succeeds and returns at least one
item. -/
def GoodRemote (env : Env α) (id : List Nat) (total : Nat) : Prop :=
  ∀ o, o < total →
    ∃ page, env.user_playlist_tracks id SEARCH_LIMIT o = .ok page ∧
      page.items ≠ []

/-- Serialization never fails. -/
def SerOk (env : Env α) : Prop := ∀ t, ∃ bs, env.ser t = .ok bs

/-- An iterator state on which pulls cannot fail: well-behaved remote for
its collection and total, infallible serialization, no store-write
faults. -/
def GoodIter (env : Env α) (s : PlaylistTracks α) : Prop :=
  GoodRemote env s.playlist_id s.total ∧ SerOk env ∧
    ∀ k, s.tree.insErr k = false

/-- The cache-write loop succeeds when serialization and inserts cannot
fail, and write faults stay absent. -/
theorem writeCache_ok (env : Env α) (hser : SerOk env) :
    ∀ (items : List α) (i : Nat) (tree : Tree) (key : List Nat),
      (∀ k, tree.insErr k = false) → ∀ o,
      ∃ tree2 key2, writeCache env items o i tree key = .ok (tree2, key2) ∧
        ∀ k, tree2.insErr k = false := by
  intro items
  induction items with
  | nil => exact fun i tree key hins o => ⟨tree, key, rfl, hins⟩
  | cons item rest ih =>
      intro i tree key hins o
      obtain ⟨bs, hbs⟩ := hser item
      have hinsert : tree.insert (PlaylistTracks.update_key key (o + i)) bs =
          .ok ⟨(PlaylistTracks.update_key key (o + i), bs) :: tree.entries,
               tree.getErr, tree.insErr⟩ := by
        simp [Tree.insert, hins]
      obtain ⟨tree2, key2, hwc, hins2⟩ :=
        ih (i + 1) ⟨(PlaylistTracks.update_key key (o + i), bs) :: tree.entries,
                    tree.getErr, tree.insErr⟩
          (PlaylistTracks.update_key key (o + i)) (fun k => hins k) o
      exact ⟨tree2, key2, by simp [writeCache, hbs, hinsert, hwc], hins2⟩

/-- The post-cache path of a pull on a good non-exhausted iterator always
yields a success and advances the offset by exactly one. -/
theorem afterCache_success (env : Env α) (s : PlaylistTracks α)
    (hg : GoodIter env s) (hlt : s.offset < s.total) :
    ∃ t s2 tr, PlaylistTracks.afterCache env s = (some (.ok t), s2, tr) ∧
      s2.offset = s.offset + 1 ∧ s2.total = s.total ∧
      s2.playlist_id = s.playlist_id ∧ GoodIter env s2 := by
  obtain ⟨hr, hser, hins⟩ := hg
  cases hbuf : s.buffer with
  | cons t rest =>
      exact ⟨t, { s with buffer := rest, offset := s.offset + 1 }, [],
        by simp [PlaylistTracks.afterCache, hbuf], rfl, rfl, rfl,
        ⟨hr, hser, hins⟩⟩
  | nil =>
      obtain ⟨page, hfetch, hne⟩ := hr s.offset hlt
      obtain ⟨tree2, key2, hwc, hins2⟩ :=
        writeCache_ok env hser page.items 0 s.tree s.key hins s.offset
      cases hitems : page.items with
      | nil => exact absurd hitems hne
      | cons t rest =>
          rw [hitems] at hwc
          have hres : PlaylistTracks.afterCache env s =
              (some (.ok t),
               { s with buffer := rest, tree := tree2, key := key2,
                        offset := s.offset + 1 },
               [s.offset]) := by
            simp only [PlaylistTracks.afterCache, hbuf, hfetch, hitems, hwc]
          exact ⟨t, _, [s.offset], hres, rfl, rfl, rfl, ⟨hr, hser, hins2⟩⟩

/-- A pull on a good non-exhausted iterator yields a success and advances
the offset by exactly one, whatever the cache contains. -/
theorem next_success_step (env : Env α) (s : PlaylistTracks α)
    (hg : GoodIter env s) (hlt : s.offset < s.total) :
    ∃ t s2 tr, PlaylistTracks.next env s = (some (.ok t), s2, tr) ∧
      s2.offset = s.offset + 1 ∧ s2.total = s.total ∧
      s2.playlist_id = s.playlist_id ∧ GoodIter env s2 := by
  have hg2 := hg
  obtain ⟨hr, hser, hins⟩ := hg2
  simp only [PlaylistTracks.next]
  rw [if_neg (Nat.not_le.2 hlt)]
  cases hget : s.tree.get (PlaylistTracks.update_key s.key s.offset) with
  | ok ov =>
    cases ov with
    | some bs =>
      cases hde : env.de bs with
      | ok track =>
          refine ⟨track,
            { s with key := PlaylistTracks.update_key s.key s.offset,
                     buffer := s.buffer.tail, offset := s.offset + 1 }, [],
            ?_, rfl, rfl, rfl, ⟨hr, hser, hins⟩⟩
          simp [hget, hde]
      | error u =>
          simp only [hget, hde]
          exact afterCache_success env
            { s with key := PlaylistTracks.update_key s.key s.offset }
            ⟨hr, hser, hins⟩ hlt
    | none =>
        simp only [hget]
        exact afterCache_success env
          { s with key := PlaylistTracks.update_key s.key s.offset }
          ⟨hr, hser, hins⟩ hlt
  | error u =>
      simp only [hget]
      exact afterCache_success env
        { s with key := PlaylistTracks.update_key s.key s.offset }
        ⟨hr, hser, hins⟩ hlt

/-- A run always produces one result per pull. -/
theorem run_length (env : Env α) :
    ∀ (n : Nat) (s : PlaylistTracks α), (run env s n).1.length = n := by
  intro n
  induction n with
  | zero => intro s; rfl
  | succ n ih => intro s; simp [run, ih]

/-- Through the first phase of a traversal on a good iterator, every pull
succeeds and the cursor lands exactly `n` further. -/
theorem run_good (env : Env α) :
    ∀ (n : Nat) (s : PlaylistTracks α), GoodIter env s →
      s.offset + n ≤ s.total →
      (∀ m, m < n → ∃ t, ((run env s n).1)[m]? = some (some (.ok t))) ∧
      (run env s n).2.offset = s.offset + n ∧
      (run env s n).2.total = s.total ∧
      GoodIter env (run env s n).2 := by
  intro n
  induction n with
  | zero =>
      intro s hg h
      exact ⟨fun m hm => absurd hm (Nat.not_lt_zero m), rfl, rfl, hg⟩
  | succ n ih =>
      intro s hg h
      have hlt : s.offset < s.total := by omega
      obtain ⟨t, s2, tr, hnext, hoff, htot, hid, hg2⟩ :=
        next_success_step env s hg hlt
      have h2 : s2.offset + n ≤ s2.total := by omega
      obtain ⟨ih1, ih2, ih3, ih4⟩ := ih s2 hg2 h2
      have hrun : run env s (n + 1) =
          (some (.ok t) :: (run env s2 n).1, (run env s2 n).2) := by
        simp [run, hnext]
      refine ⟨?_, ?_, ?_, ?_⟩
      · intro m hm
        cases m with
        | zero => exact ⟨t, by simp [hrun]⟩
        | succ m2 =>
            obtain ⟨t2, ht2⟩ := ih1 m2 (by omega)
            exact ⟨t2, by simp [hrun, ht2]⟩
      · rw [hrun]
        show (run env s2 n).2.offset = s.offset + (n + 1)
        omega
      · rw [hrun]
        show (run env s2 n).2.total = s.total
        omega
      · rw [hrun]; exact ih4

/-- Once the cursor has reached the total, every further pull produces
nothing and the state never changes. -/
theorem run_exhausted (env : Env α) :
    ∀ (n : Nat) (s : PlaylistTracks α), s.total ≤ s.offset →
      run env s n = (List.replicate n none, s) := by
  intro n
  induction n with
  | zero => intro s h; rfl
  | succ n ih =>
      intro s h
      have hnext : PlaylistTracks.next env s = (none, s, []) := by
        simp [PlaylistTracks.next, h]
      simp [run, hnext, ih s h, List.replicate_succ]

/-- Runs decompose along addition of pull counts. -/
theorem run_add (env : Env α) (m n : Nat) :
    ∀ s : PlaylistTracks α,
      run env s (m + n) =
        ((run env s m).1 ++ (run env (run env s m).2 n).1,
         (run env (run env s m).2 n).2) := by
  induction m with
  | zero => intro s; simp [run]
  | succ m ih =>
      intro s
      have hmn : m + 1 + n = m + n + 1 := by omega
      rw [hmn]
      simp only [run]
      rw [ih]
      simp

/-- Shared helper: the iterator `playlist_tracks` returns starts at
offset 0, carries the requested collection id, and borrows the items
tree unchanged. -/
theorem fetch_ok_fields (env : Env α) (lenT trkT : Tree) (id : List Nat)
    (force : Bool) (it : PlaylistTracks α) (lenT2 : Tree) (tr : List Nat)
    (h : playlist_tracks env lenT trkT id force = (.ok it, lenT2, tr)) :
    it.offset = 0 ∧ it.playlist_id = id ∧ it.tree = trkT := by
  simp only [playlist_tracks] at h
  split at h
  · simp at h
  · simp only [Prod.mk.injEq, Except.ok.injEq] at h
    rw [← h.1]
    exact ⟨rfl, rfl, rfl⟩
  · split at h
    · simp at h
    · split at h
      · simp at h
      · simp only [Prod.mk.injEq, Except.ok.injEq] at h
        rw [← h.1]
        exact ⟨rfl, rfl, rfl⟩

/-- C1: for an iterator returned by `playlist_tracks` over a collection
of total `T`, with an error-free environment (well-behaved remote,
infallible serialization, no store-write faults), a traversal of
`T + n` pulls yields a success at every position below `T` and `none` at
every position from `T` on. -/
theorem C1_exhaustion {α : Type} (env : Env α) (lenT trkT : Tree)
    (id : List Nat) (force : Bool) (it : PlaylistTracks α)
    (lenT2 : Tree) (tr : List Nat)
    (hfetch : playlist_tracks env lenT trkT id force = (.ok it, lenT2, tr))
    (hr : GoodRemote env id it.total)
    (hser : SerOk env)
    (hins : ∀ k, trkT.insErr k = false)
    (n : Nat) :
    (∀ m, m < it.total →
      ∃ t, ((run env it (it.total + n)).1)[m]? = some (some (.ok t))) ∧
    (∀ m, it.total ≤ m → m < it.total + n →
      ((run env it (it.total + n)).1)[m]? = some none) := by
  obtain ⟨hoff, hid, htree⟩ :=
    fetch_ok_fields env lenT trkT id force it lenT2 tr hfetch
  have hg : GoodIter env it :=
    ⟨by rw [hid]; exact hr, hser, by rw [htree]; exact hins⟩
  have hbound : it.offset + it.total ≤ it.total := by omega
  obtain ⟨ph1, ph2, ph3, ph4⟩ := run_good env it.total it hg hbound
  have hlen1 : (run env it it.total).1.length = it.total :=
    run_length env it.total it
  have hsplit := run_add env it.total n it
  have hexh : run env (run env it it.total).2 n =
      (List.replicate n none, (run env it it.total).2) :=
    run_exhausted env n _ (by omega)
  constructor
  · intro m hm
    obtain ⟨t, ht⟩ := ph1 m hm
    refine ⟨t, ?_⟩
    rw [hsplit, List.getElem?_append_left (by omega)]
    exact ht
  · intro m hm1 hm2
    rw [hsplit, List.getElem?_append_right (by omega), hexh]
    rw [hlen1, List.getElem?_replicate]
    rw [if_pos (by omega)]

/-- The iterator `playlist_tracks` builds for `envW` on an empty cache:
total 2, offset 0, buffer seeded with the first (whole) page. -/
def itW : PlaylistTracks Nat :=
  ⟨[97], 2, 0, [97, 0, 0, 0, 0], [100, 101], mkTree []⟩

/-- Witness for C1: over the two-item collection, three pulls yield two
successes and then `none`. -/
theorem C1_exhaustion_witness :
    (∃ t, ((run envW itW (2 + 1)).1)[0]? = some (some (.ok t))) ∧
    (∃ t, ((run envW itW (2 + 1)).1)[1]? = some (some (.ok t))) ∧
    ((run envW itW (2 + 1)).1)[2]? = some none := by
  have h := C1_exhaustion envW (mkTree []) (mkTree []) [97] false itW
    (mkTree [([97], [0, 0, 0, 2])]) [0] rfl
    (by intro o ho
        have ho2 : o < 2 := ho
        clear ho
        interval_cases o
        · exact ⟨⟨[100, 101], 2⟩, rfl, by decide⟩
        · exact ⟨⟨[101], 2⟩, rfl, by decide⟩)
    (fun t => ⟨[t], rfl⟩) (fun k => rfl) 1
  exact ⟨h.1 0 (by decide), h.1 1 (by decide), h.2 2 (by decide) (by decide)⟩

/-!
C8: the display comparator.
-/

theorem gtThen (o : Ordering) : Ordering.gt.then o = .gt := rfl

theorem listLexCmp_swap {β : Type} (c : β → β → Ordering) [OrientedCmp c] :
    ∀ as bs, (listLexCmp c as bs).swap = listLexCmp c bs as := by
  intro as
  induction as with
  | nil => intro bs; cases bs <;> rfl
  | cons a as ih =>
      intro bs
      cases bs with
      | nil => rfl
      | cons b bs =>
          show ((c a b).then (listLexCmp c as bs)).swap = _
          rw [Ordering.swap_then, OrientedCmp.symm, ih bs]
          rfl

instance {β : Type} {c : β → β → Ordering} [OrientedCmp c] :
    OrientedCmp (listLexCmp c) :=
  ⟨fun x y => listLexCmp_swap c x y⟩

theorem listLexCmp_le_trans {β : Type} (c : β → β → Ordering) [TransCmp c] :
    ∀ as bs cs, listLexCmp c as bs ≠ .gt → listLexCmp c bs cs ≠ .gt →
      listLexCmp c as cs ≠ .gt := by
  intro as
  induction as with
  | nil =>
      intro bs cs h1 h2
      cases cs <;> simp [listLexCmp]
  | cons a as ih =>
      intro bs cs h1 h2
      cases bs with
      | nil => exact absurd rfl h1
      | cons b bs =>
        cases cs with
        | nil => exact absurd rfl h2
        | cons c0 cs =>
            have h1' : (c a b).then (listLexCmp c as bs) ≠ .gt := h1
            have h2' : (c b c0).then (listLexCmp c bs cs) ≠ .gt := h2
            show (c a c0).then (listLexCmp c as cs) ≠ .gt
            simp only [ne_eq, Ordering.then_eq_gt, not_or, not_and]
              at h1' h2' ⊢
            refine ⟨TransCmp.le_trans h1'.1 h2'.1, fun e1 e2 => ?_⟩
            match hab : c a b with
            | .gt => exact h1'.1 hab
            | .eq =>
                exact ih bs cs (h1'.2 hab)
                  (h2'.2 (TransCmp.cmp_congr_left hab ▸ e1)) e2
            | .lt =>
                exact h2'.1 (OrientedCmp.cmp_eq_gt.2
                  (TransCmp.cmp_congr_left e1 ▸ hab))

instance {β : Type} {c : β → β → Ordering} [TransCmp c] :
    TransCmp (listLexCmp c) where
  le_trans h1 h2 := listLexCmp_le_trans c _ _ _ h1 h2

instance : TransCmp bytesCmp :=
  inferInstanceAs (TransCmp (listLexCmp compare))

instance : OrientedCmp optBytesCmp where
  symm x y := by
    match x, y with
    | none, none => rfl
    | none, some b => rfl
    | some a, none => rfl
    | some a, some b =>
        show (bytesCmp a b).swap = bytesCmp b a
        exact OrientedCmp.symm a b

instance : TransCmp optBytesCmp where
  le_trans {x y z} h1 h2 := by
    match x, y, z with
    | none, _, none => simp [optBytesCmp]
    | none, _, some cv => simp [optBytesCmp]
    | some a, none, _ => exact absurd rfl h1
    | some a, some b, none => exact absurd rfl h2
    | some a, some b, some cv =>
        have h1' : bytesCmp a b ≠ .gt := h1
        have h2' : bytesCmp b cv ≠ .gt := h2
        show bytesCmp a cv ≠ .gt
        exact TransCmp.le_trans h1' h2'

instance {α β : Type} {c : β → β → Ordering} [OrientedCmp c] {f : α → β} :
    OrientedCmp (cmpOn c f) :=
  ⟨fun x y => OrientedCmp.symm (f x) (f y)⟩

instance {α β : Type} {c : β → β → Ordering} [TransCmp c] {f : α → β} :
    TransCmp (cmpOn c f) where
  le_trans {x y z} h1 h2 := by
    have h1' : c (f x) (f y) ≠ .gt := h1
    have h2' : c (f y) (f z) ≠ .gt := h2
    show c (f x) (f z) ≠ .gt
    exact TransCmp.le_trans h1' h2'

instance : TransCmp specDisplayCmp := by
  unfold specDisplayCmp
  infer_instance

theorem natCompare_succ (n m : Nat) : compare (n + 1) (m + 1) = compare n m := by
  rcases Nat.lt_trichotomy n m with h | h | h
  · rw [Nat.compare_eq_lt.2 h, Nat.compare_eq_lt.2 (by omega)]
  · subst h; rw [Nat.compare_eq_eq.2 rfl, Nat.compare_eq_eq.2 rfl]
  · rw [Nat.compare_eq_gt.2 h, Nat.compare_eq_gt.2 (by omega)]

/-- The zip loop followed by the length comparison is exactly full
lexicographic comparison of the artist-name lists. -/
theorem zip_len_eq_lex : ∀ as bs : List SimplifiedArtist,
    (artistZipCmp as bs).then (compare as.length bs.length) =
      listLexCmp bytesCmp (as.map SimplifiedArtist.name)
        (bs.map SimplifiedArtist.name) := by
  intro as
  induction as with
  | nil =>
      intro bs
      cases bs with
      | nil => rfl
      | cons b bs =>
          have hc : compare (List.length ([] : List SimplifiedArtist))
              (b :: bs).length = .lt :=
            Nat.compare_eq_lt.2 (by simp)
          rw [show artistZipCmp [] (b :: bs) = .eq from rfl, eqThen, hc]
          rfl
  | cons a as ih =>
      intro bs
      cases bs with
      | nil =>
          have hc : compare (a :: as).length
              (List.length ([] : List SimplifiedArtist)) = .gt :=
            Nat.compare_eq_gt.2 (by simp)
          rw [show artistZipCmp (a :: as) [] = .eq from rfl, eqThen, hc]
          rfl
      | cons b bs =>
          show (match bytesCmp a.name b.name with
            | .eq => artistZipCmp as bs
            | o => o).then _ = (bytesCmp a.name b.name).then _
          cases hab : bytesCmp a.name b.name with
          | lt => rfl
          | gt => rfl
          | eq =>
              show (artistZipCmp as bs).then
                  (compare (a :: as).length (b :: bs).length) =
                listLexCmp bytesCmp (as.map SimplifiedArtist.name)
                  (bs.map SimplifiedArtist.name)
              rw [List.length_cons, List.length_cons, natCompare_succ]
              exact ih bs

/-- When the artist-name lists compare lexicographically equal they are
equal, so the subsequent length comparison is absorbed. -/
theorem lex_len_absorb : ∀ as bs : List SimplifiedArtist,
    (listLexCmp bytesCmp (as.map SimplifiedArtist.name)
        (bs.map SimplifiedArtist.name)).then
      (compare as.length bs.length) =
      listLexCmp bytesCmp (as.map SimplifiedArtist.name)
        (bs.map SimplifiedArtist.name) := by
  intro as
  induction as with
  | nil =>
      intro bs
      cases bs with
      | nil => rfl
      | cons b bs =>
          have h : listLexCmp bytesCmp
              (List.map SimplifiedArtist.name ([] : List SimplifiedArtist))
              ((b :: bs).map SimplifiedArtist.name) = .lt := rfl
          rw [h, ltThen]
  | cons a as ih =>
      intro bs
      cases bs with
      | nil =>
          have h : listLexCmp bytesCmp
              ((a :: as).map SimplifiedArtist.name)
              (List.map SimplifiedArtist.name
                ([] : List SimplifiedArtist)) = .gt := rfl
          rw [h, gtThen]
      | cons b bs =>
          show ((bytesCmp a.name b.name).then _).then _ =
            (bytesCmp a.name b.name).then _
          cases hab : bytesCmp a.name b.name with
          | lt => rfl
          | gt => rfl
          | eq =>
              show (listLexCmp bytesCmp (as.map SimplifiedArtist.name)
                  (bs.map SimplifiedArtist.name)).then
                  (compare (a :: as).length (b :: bs).length) =
                listLexCmp bytesCmp (as.map SimplifiedArtist.name)
                  (bs.map SimplifiedArtist.name)
              rw [List.length_cons, List.length_cons, natCompare_succ]
              exact ih bs

theorem thenAssoc (a b c : Ordering) :
    (a.then b).then c = a.then (b.then c) := by
  cases a <;> rfl

/-- The artist segment of the comparison chain: zip-then-count equals
full-list-lex-then-count, whatever the continuation. -/
theorem artists_segment (as bs : List SimplifiedArtist) (x : Ordering) :
    (artistZipCmp as bs).then ((compare as.length bs.length).then x) =
      (listLexCmp bytesCmp (as.map SimplifiedArtist.name)
          (bs.map SimplifiedArtist.name)).then
        ((compare as.length bs.length).then x) := by
  conv_lhs => rw [← thenAssoc, zip_len_eq_lex]
  conv_rhs => rw [← thenAssoc, lex_len_absorb]

/-- The code comparator agrees with the spec tuple comparator at every
pair of tracks. -/
theorem cmp_eq_spec (a b : PlaylistTrack) :
    playlist_track_sort_cmp a b = specDisplayCmp a b := by
  show playlist_track_sort_cmp a b =
    (cmpOn optBytesCmp (fun t => t.track.album.release_date) a b).then
    ((cmpOn (listLexCmp bytesCmp)
        (fun t => t.track.artists.map SimplifiedArtist.name) a b).then
    ((cmpOn compare (fun t => t.track.artists.length) a b).then
    ((cmpOn bytesCmp (fun t => t.track.album.name) a b).then
    ((cmpOn compare (fun t => t.track.track_number) a b).then
    (cmpOn bytesCmp (fun t => t.track.name) a b)))))
  simp only [cmpOn]
  rw [← artists_segment]
  unfold playlist_track_sort_cmp
  cases h1 : optBytesCmp a.track.album.release_date
      b.track.album.release_date with
  | lt => rfl
  | gt => rfl
  | eq =>
      cases h2 : artistZipCmp a.track.artists b.track.artists with
      | lt => rfl
      | gt => rfl
      | eq =>
          cases h3 : compare a.track.artists.length
              b.track.artists.length with
          | lt => rfl
          | gt => rfl
          | eq =>
              cases h4 : bytesCmp a.track.album.name
                  b.track.album.name with
              | lt => rfl
              | gt => rfl
              | eq =>
                  cases h5 : compare a.track.track_number
                      b.track.track_number with
                  | lt => rfl
                  | gt => rfl
                  | eq => rfl

instance : TransCmp playlist_track_sort_cmp := by
  have he : playlist_track_sort_cmp = specDisplayCmp :=
    funext fun a => funext fun b => cmp_eq_spec a b
  rw [he]
  infer_instance

/-- C8: the display comparator compares release date, then artist names
lexicographically, then artist count, then album name, then track number,
then track name (it agrees everywhere with the spec tuple comparator);
the induced relation is total and transitive; and the printed track list
is sorted by it (a sorted permutation of the input). -/
theorem C8_display_order :
    (∀ a b, playlist_track_sort_cmp a b = specDisplayCmp a b) ∧
    (∀ a b, trackLe a b ∨ trackLe b a) ∧
    (∀ a b c, trackLe a b → trackLe b c → trackLe a c) ∧
    (∀ ts, List.Sorted trackLe (sortTracks ts) ∧
      List.Perm (sortTracks ts) ts) := by
  have htotal : ∀ a b, trackLe a b ∨ trackLe b a := by
    intro a b
    by_cases h : playlist_track_sort_cmp a b = .gt
    · right
      unfold trackLe
      rw [OrientedCmp.cmp_eq_gt.1 h]
      simp
    · exact Or.inl h
  have htrans : ∀ a b c, trackLe a b → trackLe b c → trackLe a c :=
    fun a b c h1 h2 => TransCmp.le_trans h1 h2
  refine ⟨cmp_eq_spec, htotal, htrans, fun ts => ⟨?_, ?_⟩⟩
  · haveI : IsTotal PlaylistTrack trackLe := ⟨htotal⟩
    haveI : IsTrans PlaylistTrack trackLe := ⟨htrans⟩
    exact List.sorted_insertionSort trackLe ts
  · exact List.perm_insertionSort trackLe ts

/-- Three concrete tracks ordered by release date. -/
def trA : PlaylistTrack := ⟨⟨⟨none, [1]⟩, [], 1, [1]⟩⟩

/-- Second concrete track. -/
def trB : PlaylistTrack := ⟨⟨⟨some [50], [2]⟩, [⟨[7]⟩], 2, [2]⟩⟩

/-- Third concrete track. -/
def trC : PlaylistTrack := ⟨⟨⟨some [51], [3]⟩, [⟨[8]⟩], 3, [3]⟩⟩

/-- Witness for C8: transitivity of the display order at three concrete
tracks, with the premises checked by evaluation. -/
theorem C8_display_order_witness :
    trackLe trA trB ∧ trackLe trB trC ∧ trackLe trA trC :=
  ⟨by decide, by decide,
    C8_display_order.2.2.1 trA trB trC (by decide) (by decide)⟩

end SpotifyCache
